import Mathlib

/-!
Verification of `src/zapcut/src-tauri/update_tauri_config.py`.

The script reads a JSON configuration file, replaces the field
`bundle.resources` with a platform-specific list of binary paths, and
writes the file back with `json.dump(..., indent=2, ensure_ascii=False)`
followed by a trailing newline.

The embedding below models:
  * JSON documents (`JValue`, with arrays and objects as ordered
    sequences; object keys are kept in insertion order, mirroring Python
    dicts; JSON numbers are modelled as integers);
  * Python dict primitives (`hasKey`, `lookupKey`, `setKey`: assignment
    replaces the value at the first occurrence of the key, otherwise
    appends, exactly like CPython dict item assignment);
  * the serializer of `json.dump(..., indent=2, ensure_ascii=False)`
    (`dumpV`) and the parser of `json.load` (`parseVal` and friends,
    fuel-indexed);
  * the resource-patching step of lines 58-61 (`applyResources`), which
    yields a `typeError` outcome exactly where CPython raises `TypeError`
    (membership test or item assignment on a non-dict);
  * the whole run of `update_tauri_config` as a function from the
    platform argument, the config path and the config file content to a
    `RunResult` (exit code, stdout lines, stderr lines, resulting file
    content, and a tag naming the observed outcome).
-/

namespace Zapcut

/-! ### JSON documents -/

mutual
/-- JSON value, as produced by `json.load`: object keys keep insertion
order, numbers are modelled as integers. -/
inductive JValue where
  | null : JValue
  | bool (b : Bool) : JValue
  | num (n : Int) : JValue
  | str (s : String) : JValue
  | arr (elems : JArr) : JValue
  | obj (fields : JObj) : JValue
/-- Ordered sequence of JSON values (a Python list). -/
inductive JArr where
  | nil : JArr
  | cons (hd : JValue) (tl : JArr) : JArr
/-- Ordered sequence of key-value pairs (a Python dict in insertion order). -/
inductive JObj where
  | nil : JObj
  | cons (key : String) (val : JValue) (tl : JObj) : JObj
end

deriving instance DecidableEq for JValue

deriving instance DecidableEq for JArr

deriving instance DecidableEq for JObj

/-- Membership test of a key, as in the Python expression
`k in config` on a dict. -/
def hasKey : JObj → String → Bool
  | .nil, _ => false
  | .cons k0 _ tl, k => k0 = k || hasKey tl k

/-- Value stored at a key (first occurrence), as in `config[k]`. -/
def lookupKey : JObj → String → Option JValue
  | .nil, _ => none
  | .cons k0 v0 tl, k => if k0 = k then some v0 else lookupKey tl k

/-- Dict item assignment `config[k] = v`: replaces the value at the first
occurrence of `k` and otherwise appends the pair at the end, exactly as a
CPython dict preserves insertion order. -/
def setKey : JObj → String → JValue → JObj
  | .nil, k, v => .cons k v .nil
  | .cons k0 v0 tl, k, v => if k0 = k then .cons k v tl else .cons k0 v0 (setKey tl k v)

mutual
/-- Representation invariant of documents produced by `json.load`: no
object level contains a duplicated key (Python dicts cannot). -/
def nodupV : JValue → Bool
  | .null => true
  | .bool _ => true
  | .num _ => true
  | .str _ => true
  | .arr xs => nodupA xs
  | .obj fs => nodupO fs
/-- All elements of the array satisfy `nodupV`. -/
def nodupA : JArr → Bool
  | .nil => true
  | .cons x xs => nodupV x && nodupA xs
/-- Keys at this level are distinct and all values satisfy `nodupV`. -/
def nodupO : JObj → Bool
  | .nil => true
  | .cons k v tl => !hasKey tl k && nodupV v && nodupO tl
end

/-- A list of strings as a JSON array, as `resources` is stored. -/
def strList : List String → JArr
  | [] => .nil
  | s :: l => .cons (.str s) (strList l)

/-! ### Characters, whitespace, digits, string escapes -/

/-- JSON whitespace, the character class skipped by `json.load`. -/
def isWsChar (c : Char) : Bool := c = ' ' || c = '\t' || c = '\n' || c = '\r'

/-- Drop leading JSON whitespace. -/
def skipws : List Char → List Char
  | [] => []
  | c :: l => if isWsChar c then skipws l else c :: l

/-- Decimal digit character for `n < 10`. -/
def digitChar (n : Nat) : Char := Char.ofNat (48 + n)

/-- Lowercase hexadecimal digit character for `n < 16`, as used by the
`\u00xx` escapes emitted by `json.dump`. -/
def hexDigitChar (n : Nat) : Char := if n < 10 then Char.ofNat (48 + n) else Char.ofNat (87 + n)

/-- Decimal digits of a positive number, most significant first; the
first argument is fuel making the recursion structural. -/
def natToCharsAux : Nat → Nat → List Char
  | 0, _ => []
  | f+1, n => if n = 0 then [] else natToCharsAux f (n / 10) ++ [digitChar (n % 10)]

/-- Decimal representation of a natural number, as Python prints it. -/
def natToChars (n : Nat) : List Char := if n = 0 then [digitChar 0] else natToCharsAux (n + 1) n

/-- Decimal representation of an integer, as Python `repr` prints it. -/
def intToChars (n : Int) : List Char :=
  if n < 0 then '-' :: natToChars n.natAbs else natToChars n.toNat

/-- Escape of one character inside a JSON string literal, following
`json.encoder.py_encode_basestring` (used with `ensure_ascii=False`):
backslash, double quote and the named control characters get two-character
escapes, the remaining control characters get `\u00xx`, and every other
character is passed through. -/
def escChar (c : Char) : List Char :=
  if c = '\\' then ['\\', '\\']
  else if c = '"' then ['\\', '"']
  else if c = '\n' then ['\\', 'n']
  else if c = '\t' then ['\\', 't']
  else if c = '\r' then ['\\', 'r']
  else if c = '\x08' then ['\\', 'b']
  else if c = '\x0c' then ['\\', 'f']
  else if c.toNat < 32 then
    ['\\', 'u', '0', '0', hexDigitChar (c.toNat / 16), hexDigitChar (c.toNat % 16)]
  else [c]

/-- Escape of a whole character sequence. -/
def escList : List Char → List Char
  | [] => []
  | c :: l => escChar c ++ escList l

/-- Serialized JSON string literal, quotes included. -/
def dumpStr (s : String) : List Char := '"' :: (escList s.data ++ ['"'])

/-- Indentation emitted by `json.dump` with `indent=2` at nesting depth `d`. -/
def indentChars (d : Nat) : List Char := List.replicate (2 * d) ' '

/-! ### Serializer of `json.dump(config, f, indent=2, ensure_ascii=False)` -/

mutual
/-- Serialization of a value at nesting depth `d`, following
`json.dump(..., indent=2, ensure_ascii=False)`: items of non-empty
containers each start on their own line indented two spaces deeper, with
separators `,` and `: `, and empty containers are rendered inline. -/
def dumpV : Nat → JValue → List Char
  | _, .null => ['n', 'u', 'l', 'l']
  | _, .bool true => ['t', 'r', 'u', 'e']
  | _, .bool false => ['f', 'a', 'l', 's', 'e']
  | _, .num n => intToChars n
  | _, .str s => dumpStr s
  | _, .arr .nil => ['[', ']']
  | d, .arr (.cons x xs) =>
      '[' :: '\n' :: (indentChars (d+1) ++ (dumpV (d+1) x ++ (dumpArrTail (d+1) xs
        ++ '\n' :: (indentChars d ++ [']']))))
  | _, .obj .nil => ['\x7b', '\x7d']
  | d, .obj (.cons k v fs) =>
      '\x7b' :: '\n' :: (indentChars (d+1) ++ (dumpStr k ++ ':' :: ' ' :: (dumpV (d+1) v
        ++ (dumpObjTail (d+1) fs ++ '\n' :: (indentChars d ++ ['\x7d'])))))
/-- Serialization of the remaining elements of a non-empty array: each is
preceded by a comma, a newline and the indentation of depth `d`. -/
def dumpArrTail : Nat → JArr → List Char
  | _, .nil => []
  | d, .cons y ys => ',' :: '\n' :: (indentChars d ++ (dumpV d y ++ dumpArrTail d ys))
/-- Serialization of the remaining members of a non-empty object. -/
def dumpObjTail : Nat → JObj → List Char
  | _, .nil => []
  | d, .cons k v fs =>
      ',' :: '\n' :: (indentChars d ++ (dumpStr k ++ ':' :: ' ' :: (dumpV d v ++ dumpObjTail d fs)))
end

/-- Exact file content produced by lines 64-66 of the script:
`json.dump(config, f, indent=2, ensure_ascii=False)` followed by
`f.write(chr(10))`. -/
def writeContent (config : JValue) : String := String.mk (dumpV 0 config ++ ['\n'])

/-! ### Parser of `json.load` -/

/-- Value of a hexadecimal digit character, for `\uXXXX` escapes. -/
def hexVal (c : Char) : Option Nat :=
  if 48 ≤ c.toNat ∧ c.toNat ≤ 57 then some (c.toNat - 48)
  else if 97 ≤ c.toNat ∧ c.toNat ≤ 102 then some (c.toNat - 87)
  else if 65 ≤ c.toNat ∧ c.toNat ≤ 70 then some (c.toNat - 55)
  else none

/-- Combined value of the four hexadecimal digits of a `\uXXXX` escape. -/
def hexDigits4 (h1 h2 h3 h4 : Char) : Option Nat :=
  match hexVal h1, hexVal h2, hexVal h3, hexVal h4 with
  | some a, some b, some c, some d => some (4096 * a + 256 * b + 16 * c + d)
  | _, _, _, _ => none

mutual
/-- Scanner of the body of a JSON string literal (the opening quote is
already consumed): returns the decoded characters and the input following
the closing quote.  As in `json.load` strict mode, raw control characters
are rejected and the escapes are the standard JSON ones. -/
def parseStrAux : List Char → Option (List Char × List Char)
  | [] => none
  | c :: r =>
    if c = '"' then some ([], r)
    else if c = '\\' then parseEsc r
    else if c.toNat < 32 then none
    else (parseStrAux r).map (fun p => (c :: p.1, p.2))
/-- Decoder of the character following a backslash in a string literal. -/
def parseEsc : List Char → Option (List Char × List Char)
  | [] => none
  | e :: r2 =>
    if e = '"' then (parseStrAux r2).map (fun p => ('"' :: p.1, p.2))
    else if e = '\\' then (parseStrAux r2).map (fun p => ('\\' :: p.1, p.2))
    else if e = '/' then (parseStrAux r2).map (fun p => ('/' :: p.1, p.2))
    else if e = 'b' then (parseStrAux r2).map (fun p => ('\x08' :: p.1, p.2))
    else if e = 'f' then (parseStrAux r2).map (fun p => ('\x0c' :: p.1, p.2))
    else if e = 'n' then (parseStrAux r2).map (fun p => ('\n' :: p.1, p.2))
    else if e = 'r' then (parseStrAux r2).map (fun p => ('\r' :: p.1, p.2))
    else if e = 't' then (parseStrAux r2).map (fun p => ('\t' :: p.1, p.2))
    else if e = 'u' then parseHex1 r2
    else none
/-- First hexadecimal digit of a unicode escape. -/
def parseHex1 : List Char → Option (List Char × List Char)
  | [] => none
  | h1 :: r => parseHex2 h1 r
/-- Second hexadecimal digit of a unicode escape. -/
def parseHex2 : Char → List Char → Option (List Char × List Char)
  | _, [] => none
  | a, h2 :: r => parseHex3 a h2 r
/-- Third hexadecimal digit of a unicode escape. -/
def parseHex3 : Char → Char → List Char → Option (List Char × List Char)
  | _, _, [] => none
  | a, b, h3 :: r => parseHex4 a b h3 r
/-- Fourth hexadecimal digit of a unicode escape: decode the four digits
and continue scanning the string body. -/
def parseHex4 : Char → Char → Char → List Char → Option (List Char × List Char)
  | _, _, _, [] => none
  | a, b, c3, h4 :: r6 =>
    match hexDigits4 a b c3 h4 with
    | some m => (parseStrAux r6).map (fun p => (Char.ofNat m :: p.1, p.2))
    | none => none
end

/-- Accumulating scanner of a run of decimal digits. -/
def parseDigitsAux : Nat → List Char → Nat × List Char
  | acc, [] => (acc, [])
  | acc, c :: r => if c.isDigit then parseDigitsAux (acc * 10 + (c.toNat - 48)) r else (acc, c :: r)

/-- Scanner of an unsigned JSON integer: as in the `json` number grammar
a leading `0` is the whole number (no leading zeros). -/
def parseNumNat : List Char → Option (Nat × List Char)
  | [] => none
  | c :: r =>
    if c = '0' then some (0, r)
    else if c.isDigit then some (parseDigitsAux (c.toNat - 48) r) else none

mutual
/-- Parser of one JSON value; the first argument is fuel.  The input is
expected to start at a non-whitespace character (callers skip whitespace). -/
def parseVal : Nat → List Char → Option (JValue × List Char)
  | 0, _ => none
  | _+1, [] => none
  | f+1, c :: r =>
    if c = '\x7b' then (parseObjBody f .nil r).map (fun p => (.obj p.1, p.2))
    else if c = '[' then (parseArrBody f r).map (fun p => (.arr p.1, p.2))
    else if c = '"' then (parseStrAux r).map (fun p => (.str (String.mk p.1), p.2))
    else if c = '-' then (parseNumNat r).map (fun p => (.num (-(p.1 : Int)), p.2))
    else if c.isDigit then (parseNumNat (c :: r)).map (fun p => (.num (p.1 : Int), p.2))
    else if c = 't' then
      match r with
      | 'r' :: 'u' :: 'e' :: r2 => some (.bool true, r2)
      | _ => none
    else if c = 'f' then
      match r with
      | 'a' :: 'l' :: 's' :: 'e' :: r2 => some (.bool false, r2)
      | _ => none
    else if c = 'n' then
      match r with
      | 'u' :: 'l' :: 'l' :: r2 => some (.null, r2)
      | _ => none
    else none
/-- Parser of an array body, right after the opening bracket: either a
closing bracket or a first element followed by the remaining elements. -/
def parseArrBody : Nat → List Char → Option (JArr × List Char)
  | 0, _ => none
  | f+1, l =>
    match skipws l with
    | [] => none
    | c :: r =>
      if c = ']' then some (.nil, r)
      else (parseVal f (c :: r)).bind fun p =>
        (parseArrRest f p.2).map fun q => (.cons p.1 q.1, q.2)
/-- Parser of the remaining elements of an array, right after an element:
either the closing bracket or a comma followed by the next element. -/
def parseArrRest : Nat → List Char → Option (JArr × List Char)
  | 0, _ => none
  | f+1, l =>
    match skipws l with
    | [] => none
    | c :: r =>
      if c = ']' then some (.nil, r)
      else if c = ',' then
        (parseVal f (skipws r)).bind fun p =>
          (parseArrRest f p.2).map fun q => (.cons p.1 q.1, q.2)
      else none
/-- Parser of an object body, right after the opening brace: either the
closing brace or the first member. -/
def parseObjBody : Nat → JObj → List Char → Option (JObj × List Char)
  | 0, _, _ => none
  | f+1, acc, l =>
    match skipws l with
    | [] => none
    | c :: r => if c = '\x7d' then some (acc, r) else parseMember f acc (c :: r)
/-- Parser of one object member (key, colon, value), entering the result
into the accumulated dict by item assignment, then of the rest. -/
def parseMember : Nat → JObj → List Char → Option (JObj × List Char)
  | 0, _, _ => none
  | f+1, acc, l =>
    match l with
    | [] => none
    | c :: r =>
      if c = '"' then
        (parseStrAux r).bind fun p =>
          match skipws p.2 with
          | [] => none
          | c2 :: r3 =>
            if c2 = ':' then
              (parseVal f (skipws r3)).bind fun q =>
                parseObjRest f (setKey acc (String.mk p.1) q.1) q.2
            else none
      else none
/-- Parser of the remaining members of an object, right after a member:
either the closing brace or a comma followed by the next member. -/
def parseObjRest : Nat → JObj → List Char → Option (JObj × List Char)
  | 0, _, _ => none
  | f+1, acc, l =>
    match skipws l with
    | [] => none
    | c :: r =>
      if c = '\x7d' then some (acc, r)
      else if c = ',' then parseMember f acc (skipws r)
      else none
end

/-- Behavior of `json.load` on the file content (line 55): skip leading
whitespace, parse one value, and require only whitespace to follow;
`none` models an uncaught `json.decoder.JSONDecodeError`. -/
def loadJson (l : List Char) : Option JValue :=
  match parseVal ((skipws l).length + 1) (skipws l) with
  | some (v, r) => if skipws r = [] then some v else none
  | none => none

/-! ### The resource-patching step (lines 58-61) and the whole run -/

/-- Failure of the patching step; CPython raises `TypeError` at the
membership test `chr(39)bundle-chr(39) not in config` on a number, boolean or null, and
at the item assignment on any other non-dict. -/
inductive ApplyErr where
  | typeError : ApplyErr
deriving DecidableEq

/-- Lines 58-59 of the script: when the document has no `bundle` key,
assign an empty dict to it. -/
def ensureBundle (o : JObj) : JObj :=
  if hasKey o "bundle" then o else setKey o "bundle" (.obj .nil)

/-- Line 61 on a dict document whose `bundle` key is present: read the
`bundle` value and assign the resource list to its `resources` key; a
non-dict `bundle` value raises `TypeError` (modelled as `typeError`). -/
def setBundleResources (resources : List String) (o1 : JObj) : Except ApplyErr JValue :=
  match lookupKey o1 "bundle" with
  | some (.obj b) =>
      .ok (.obj (setKey o1 "bundle" (.obj (setKey b "resources" (.arr (strList resources))))))
  | _ => .error .typeError

/-- Lines 58-61 of the script: ensure a `bundle` dict exists (creating an
empty one when the key is absent), then assign the resource list to its
`resources` key.  When the document is not a dict, or its `bundle` value
is not a dict, CPython raises `TypeError` before anything is written. -/
def applyResources (resources : List String) (config : JValue) : Except ApplyErr JValue :=
  match config with
  | .obj o => setBundleResources resources (ensureBundle o)
  | _ => .error .typeError

/-- Lookup in an association list, modelling the dict lookup
`platform_resources[platform]` together with the preceding membership
test. -/
def lookupTable {α : Type} : List (String × α) → String → Option α
  | [], _ => none
  | (k, v) :: tl, key => if k = key then some v else lookupTable tl key

/-- The platform table of lines 22-39, in source order. -/
def platform_resources : List (String × List String) :=
  [("macos-aarch64", ["binaries/macos-aarch64/ffmpeg", "binaries/macos-aarch64/ffprobe"]),
   ("macos-x86_64", ["binaries/macos-x86_64/ffmpeg", "binaries/macos-x86_64/ffprobe"]),
   ("linux-x86_64", ["binaries/linux-x86_64/ffmpeg", "binaries/linux-x86_64/ffprobe"]),
   ("windows-x86_64", ["binaries/windows-x86_64/ffmpeg.exe", "binaries/windows-x86_64/ffprobe.exe"])]

/-- The four supported platform identifiers, in table order. -/
def supportedPlatforms : List String := platform_resources.map (fun p => p.1)

/-- Distinguishable ways a run terminates. -/
inductive Outcome where
  | success : Outcome
  | unknownPlatform : Outcome
  | configNotFound : Outcome
  | parseError : Outcome
  | applyTypeError : Outcome
deriving DecidableEq

/-- Observable result of one invocation: exit code, stdout lines, stderr
lines, config file content after the run (`none` when no file exists),
and a tag naming the outcome. -/
structure RunResult where
  exitCode : Nat
  stdoutLines : List String
  stderrLines : List String
  fileContent : Option String
  outcome : Outcome
deriving DecidableEq

/-- Single-quote character, used by Python message formatting. -/
def sq : String := String.mk [Char.ofNat 39]

/-- Python `repr` of a string made of ordinary characters, as it appears
inside `repr` of a list of strings. -/
def pyStrRepr (s : String) : String := sq ++ s ++ sq

/-- Python `repr` of a list of strings, as printed by line 70. -/
def pyListRepr (l : List String) : String :=
  "[" ++ String.intercalate ", " (l.map pyStrRepr) ++ "]"

/-- Stderr line of line 42. -/
def unknownPlatformMsg (platform : String) : String :=
  "Error: Unknown platform " ++ sq ++ platform ++ sq

/-- Stderr line of line 43: the joined dict keys in insertion order. -/
def validPlatformsMsg : String :=
  "Valid platforms: " ++ String.intercalate ", " supportedPlatforms

/-- Stderr line of line 51. -/
def notFoundMsg (config_path : String) : String :=
  "Error: Config file " ++ sq ++ config_path ++ sq ++ " not found"

/-- First line of the traceback the interpreter prints on an uncaught
exception. -/
def tracebackMsg : String := "Traceback (most recent call last):"

/-- One whole run of `update_tauri_config(platform, config_path)` as a
function of the config file content (`none` when the file does not
exist): platform lookup (lines 41-46), existence check (lines 49-52),
`json.load` (lines 54-55), the patching step (lines 58-61), the write
(lines 64-66) and the success messages (lines 68-70).  Uncaught
`JSONDecodeError` and `TypeError` terminate the interpreter with exit
code 1 and a traceback on stderr, leaving the file as it was. -/
def update_tauri_config (platform config_path : String) (disk : Option String) : RunResult :=
  match lookupTable platform_resources platform with
  | none => ⟨1, [], [unknownPlatformMsg platform, validPlatformsMsg], disk, .unknownPlatform⟩
  | some resources =>
    match disk with
    | none => ⟨1, [], [notFoundMsg config_path], none, .configNotFound⟩
    | some content =>
      match loadJson content.data with
      | none => ⟨1, [], [tracebackMsg], some content, .parseError⟩
      | some config =>
        match applyResources resources config with
        | .error _ => ⟨1, [], [tracebackMsg], some content, .applyTypeError⟩
        | .ok config2 =>
          ⟨0,
           ["Successfully updated " ++ config_path,
            "Platform: " ++ platform,
            "Resources: " ++ pyListRepr resources],
           [], some (writeContent config2), .success⟩

/-- Test used to state that an input does not begin with a decimal digit
(what ends a JSON integer literal). -/
def headIsDigit : List Char → Bool
  | [] => false
  | c :: _ => c.isDigit

/-- Concatenation of two key-value sequences, used to describe how the
object parser accumulates members. -/
def appendObj : JObj → JObj → JObj
  | .nil, o2 => o2
  | .cons k v tl, o2 => .cons k v (appendObj tl o2)

end Zapcut


namespace Zapcut

/-! ### Association-list and dict lemmas -/

theorem lookupTable_eq_none {α : Type} (t : List (String × α)) (k : String)
    (h : k ∉ t.map Prod.fst) : lookupTable t k = none := by
  induction t with
  | nil => rfl
  | cons p tl ih =>
    obtain ⟨k0, v0⟩ := p
    simp only [List.map_cons, List.mem_cons] at h
    push_neg at h
    simp only [lookupTable]
    rw [if_neg fun hk => h.1 hk.symm]
    exact ih h.2

theorem hasKey_of_lookupKey : ∀ (o : JObj) (k : String) (b : JValue),
    lookupKey o k = some b → hasKey o k = true
  | .nil, _, _, h => by simp [lookupKey] at h
  | .cons k0 v0 tl, k, b, h => by
    simp only [lookupKey] at h
    simp only [hasKey]
    by_cases hk : k0 = k
    · simp [hk]
    · rw [if_neg hk] at h
      simp [hk, hasKey_of_lookupKey tl k b h]

theorem lookupKey_of_hasKey : ∀ (o : JObj) (k : String),
    hasKey o k = true → ∃ b, lookupKey o k = some b
  | .nil, _, h => by simp [hasKey] at h
  | .cons k0 v0 tl, k, h => by
    simp only [hasKey, Bool.or_eq_true, decide_eq_true_eq] at h
    simp only [lookupKey]
    by_cases hk : k0 = k
    · exact ⟨v0, by rw [if_pos hk]⟩
    · obtain ⟨b, hb⟩ := lookupKey_of_hasKey tl k (h.resolve_left hk)
      exact ⟨b, by rw [if_neg hk]; exact hb⟩

theorem lookupKey_setKey_self : ∀ (o : JObj) (k : String) (v : JValue),
    lookupKey (setKey o k v) k = some v
  | .nil, k, v => by simp [setKey, lookupKey]
  | .cons k0 v0 tl, k, v => by
    simp only [setKey]
    by_cases hk : k0 = k
    · rw [if_pos hk]; simp [lookupKey]
    · rw [if_neg hk]
      simp only [lookupKey, if_neg hk]
      exact lookupKey_setKey_self tl k v

theorem lookupKey_setKey_ne : ∀ (o : JObj) (k k2 : String) (v : JValue), k2 ≠ k →
    lookupKey (setKey o k v) k2 = lookupKey o k2
  | .nil, k, k2, v, hne => by
    simp only [setKey, lookupKey]
    rw [if_neg fun hk => hne hk.symm]
  | .cons k0 v0 tl, k, k2, v, hne => by
    simp only [setKey]
    by_cases hk : k0 = k
    · subst hk
      rw [if_pos rfl]
      simp only [lookupKey]
      rw [if_neg fun hk2 => hne hk2.symm, if_neg fun hk2 => hne hk2.symm]
    · rw [if_neg hk]
      simp only [lookupKey]
      by_cases hk2 : k0 = k2
      · rw [if_pos hk2, if_pos hk2]
      · rw [if_neg hk2, if_neg hk2]
        exact lookupKey_setKey_ne tl k k2 v hne

theorem setKey_self_of_lookupKey : ∀ (o : JObj) (k : String) (x : JValue),
    lookupKey o k = some x → setKey o k x = o
  | .nil, k, x, h => by simp [lookupKey] at h
  | .cons k0 v0 tl, k, x, h => by
    simp only [lookupKey] at h
    simp only [setKey]
    by_cases hk : k0 = k
    · rw [if_pos hk] at h
      rw [if_pos hk, hk]
      cases h
      rfl
    · rw [if_neg hk] at h
      rw [if_neg hk, setKey_self_of_lookupKey tl k x h]

theorem hasKey_setKey_self (o : JObj) (k : String) (v : JValue) :
    hasKey (setKey o k v) k = true :=
  hasKey_of_lookupKey _ _ _ (lookupKey_setKey_self o k v)

/-! ### Shape of a successful patching step -/

theorem applyResources_non_obj (res : List String) (v : JValue)
    (h : ∀ o : JObj, v ≠ .obj o) : applyResources res v = .error .typeError := by
  cases v with
  | obj o => exact absurd rfl (h o)
  | null => rfl
  | bool b => rfl
  | num n => rfl
  | str s => rfl
  | arr xs => rfl

theorem applyResources_ok_shape (res : List String) (config v2 : JValue)
    (h : applyResources res config = .ok v2) :
    ∃ o2 bo2, v2 = .obj o2 ∧ lookupKey o2 "bundle" = some (.obj bo2) ∧
      lookupKey bo2 "resources" = some (.arr (strList res)) := by
  cases config with
  | obj o =>
    simp only [applyResources, setBundleResources] at h
    cases hb : lookupKey (ensureBundle o) "bundle" with
    | none => rw [hb] at h; exact Except.noConfusion h
    | some b =>
      rw [hb] at h
      cases b with
      | obj bo =>
        cases h
        refine ⟨_, setKey bo "resources" (.arr (strList res)), rfl, ?_, ?_⟩
        · exact lookupKey_setKey_self _ _ _
        · exact lookupKey_setKey_self _ _ _
      | null => exact Except.noConfusion h
      | bool b => exact Except.noConfusion h
      | num n => exact Except.noConfusion h
      | str s => exact Except.noConfusion h
      | arr xs => exact Except.noConfusion h
  | null => exact Except.noConfusion h
  | bool b => exact Except.noConfusion h
  | num n => exact Except.noConfusion h
  | str s => exact Except.noConfusion h
  | arr xs => exact Except.noConfusion h

theorem applyResources_patched (res : List String) (o2 bo : JObj)
    (hb2 : lookupKey o2 "bundle" = some (.obj bo))
    (hres : lookupKey bo "resources" = some (.arr (strList res))) :
    applyResources res (.obj o2) = .ok (.obj o2) := by
  have hk : hasKey o2 "bundle" = true := hasKey_of_lookupKey _ _ _ hb2
  simp only [applyResources, ensureBundle, if_pos hk, setBundleResources, hb2]
  rw [setKey_self_of_lookupKey bo "resources" _ hres, setKey_self_of_lookupKey o2 "bundle" _ hb2]

end Zapcut

namespace Zapcut

/-- C2: for each of the four supported platform identifiers, the platform
table maps the identifier to exactly two paths, the ffmpeg executable
first and the ffprobe executable second, both prefixed with
`binaries/<platform>/`; the two windows-x86_64 paths end in `.exe` and
the paths of the other three platforms contain no dot at all (hence no
extension). -/
theorem resolvePlatform_paths (p : String) (ps : List String)
    (h : lookupTable platform_resources p = some ps) :
    ps = ["binaries/" ++ p ++ "/ffmpeg" ++ (if p = "windows-x86_64" then ".exe" else ""),
          "binaries/" ++ p ++ "/ffprobe" ++ (if p = "windows-x86_64" then ".exe" else "")] ∧
    ps.length = 2 ∧
    (∀ s ∈ ps, ("binaries/" ++ p ++ "/").data.isPrefixOf s.data = true) ∧
    (p = "windows-x86_64" → ∀ s ∈ ps, (".exe").data.isSuffixOf s.data = true) ∧
    (p ≠ "windows-x86_64" → ∀ s ∈ ps, s.data.contains '.' = false) := by
  simp only [platform_resources, lookupTable] at h
  split_ifs at h with h1 h2 h3 h4
  · injection h with h; subst h; subst h1; decide
  · injection h with h; subst h; subst h2; decide
  · injection h with h; subst h; subst h3; decide
  · injection h with h; subst h; subst h4; decide

/-- Witness for C2 at the windows-x86_64 row of the table. -/
theorem resolvePlatform_paths_witness :
    ["binaries/windows-x86_64/ffmpeg.exe", "binaries/windows-x86_64/ffprobe.exe"].length = 2 :=
  (resolvePlatform_paths "windows-x86_64"
    ["binaries/windows-x86_64/ffmpeg.exe", "binaries/windows-x86_64/ffprobe.exe"] rfl).2.1

/-- C4: applying the linux-x86_64 resources to the document
`obj (otherKey: 1)`, which has no `bundle` key, creates the `bundle`
object at the end of the document and sets `resources` inside it,
yielding exactly
`obj (otherKey: 1, bundle: obj (resources: [ffmpeg path, ffprobe path]))`;
the applied list is exactly the table row of linux-x86_64. -/
theorem apply_missing_bundle :
    lookupTable platform_resources "linux-x86_64" =
      some ["binaries/linux-x86_64/ffmpeg", "binaries/linux-x86_64/ffprobe"] ∧
    applyResources ["binaries/linux-x86_64/ffmpeg", "binaries/linux-x86_64/ffprobe"]
        (.obj (.cons "otherKey" (.num 1) .nil)) =
      .ok (.obj (.cons "otherKey" (.num 1) (.cons "bundle"
        (.obj (.cons "resources" (.arr (.cons (.str "binaries/linux-x86_64/ffmpeg")
          (.cons (.str "binaries/linux-x86_64/ffprobe") .nil))) .nil)) .nil))) :=
  ⟨rfl, rfl⟩

/-- C5: applying a supported platform's resources twice in succession
yields the same final document as applying them once: a successful
application is a fixed point of the patching step. -/
theorem apply_idempotent (platform : String) (ps : List String) (config v2 : JValue)
    (hp : lookupTable platform_resources platform = some ps)
    (h : applyResources ps config = .ok v2) :
    applyResources ps v2 = .ok v2 := by
  obtain ⟨o2, bo2, rfl, hb2, hres⟩ := applyResources_ok_shape ps config v2 h
  exact applyResources_patched ps o2 bo2 hb2 hres

/-- Witness for C5: second application on the patched empty document. -/
theorem apply_idempotent_witness :
    applyResources ["binaries/macos-x86_64/ffmpeg", "binaries/macos-x86_64/ffprobe"]
        (.obj (.cons "bundle" (.obj (.cons "resources"
          (.arr (strList ["binaries/macos-x86_64/ffmpeg", "binaries/macos-x86_64/ffprobe"])) .nil)) .nil)) =
      .ok (.obj (.cons "bundle" (.obj (.cons "resources"
        (.arr (strList ["binaries/macos-x86_64/ffmpeg", "binaries/macos-x86_64/ffprobe"])) .nil)) .nil)) :=
  apply_idempotent "macos-x86_64" ["binaries/macos-x86_64/ffmpeg", "binaries/macos-x86_64/ffprobe"]
    (.obj .nil) _ rfl rfl

/-- C6: on an unsupported platform identifier the run exits with code 1,
prints nothing on stdout, prints the two error lines of lines 42-43 on
stderr (the second of which contains all four valid identifiers), and the
config file is neither read (the whole result is the same function of the
disk content for every disk content) nor written (the content is
returned unchanged). -/
theorem run_unknown_platform (platform config_path : String)
    (h : platform ∉ supportedPlatforms) :
    (∀ disk, update_tauri_config platform config_path disk =
      ⟨1, [], [unknownPlatformMsg platform, validPlatformsMsg], disk, .unknownPlatform⟩) ∧
    (∀ q ∈ supportedPlatforms, List.IsInfix q.data validPlatformsMsg.data) := by
  constructor
  · intro disk
    have hl : lookupTable platform_resources platform = none :=
      lookupTable_eq_none _ _ h
    simp [update_tauri_config, hl]
  · decide

/-- Witness for C6 at the unsupported identifier linux-arm64. -/
theorem run_unknown_platform_witness :
    update_tauri_config "linux-arm64" "tauri.conf.json" (some "\x7b\x7d") =
      ⟨1, [], [unknownPlatformMsg "linux-arm64", validPlatformsMsg], some "\x7b\x7d",
       .unknownPlatform⟩ :=
  (run_unknown_platform "linux-arm64" "tauri.conf.json" (by decide)).1 (some "\x7b\x7d")

/-- C7: with a supported platform and a nonexistent config file the run
exits with code 1, reports the missing file on stderr, and creates no
file (the resulting file content is still absent). -/
theorem run_missing_file (platform config_path : String) (ps : List String)
    (h : lookupTable platform_resources platform = some ps) :
    update_tauri_config platform config_path none =
      ⟨1, [], [notFoundMsg config_path], none, .configNotFound⟩ := by
  simp [update_tauri_config, h]

/-- Witness for C7 at linux-x86_64 and a missing file. -/
theorem run_missing_file_witness :
    update_tauri_config "linux-x86_64" "missing.json" none =
      ⟨1, [], [notFoundMsg "missing.json"], none, .configNotFound⟩ :=
  run_missing_file "linux-x86_64" "missing.json"
    ["binaries/linux-x86_64/ffmpeg", "binaries/linux-x86_64/ffprobe"] rfl

end Zapcut

namespace Zapcut

/-- C3 counterexample: on the content `[1]`, which is valid JSON whose
root is not an object, `json.load` succeeds (so, contrary to the claim,
loading does not fail with a parse error there; only content that is not
valid JSON, such as the `(brace)invalid` sample, makes loading fail); the
run still fails, but in the later patching step, leaving the file
untouched. -/
theorem load_non_object_root_cex :
    loadJson ("[1]" : String).data = some (.arr (.cons (.num 1) .nil)) ∧
    loadJson ("\x7binvalid" : String).data = none ∧
    update_tauri_config "linux-x86_64" "tauri.conf.json" (some "[1]") =
      ⟨1, [], [tracebackMsg], some "[1]", .applyTypeError⟩ :=
  ⟨rfl, rfl, rfl⟩

/-- C3 amended: with a supported platform, when the file content is not
valid JSON the run fails at the load step (parse error), and when the
content is valid JSON whose root is not an object the load succeeds and
the run fails at the patching step (type error); in either case the run
exits with code 1 and the file is left untouched, no write occurring. -/
theorem run_unparseable_or_non_object (platform config_path content : String)
    (ps : List String)
    (hp : lookupTable platform_resources platform = some ps) :
    (loadJson content.data = none →
      update_tauri_config platform config_path (some content) =
        ⟨1, [], [tracebackMsg], some content, .parseError⟩) ∧
    (∀ v : JValue, loadJson content.data = some v → (∀ o : JObj, v ≠ .obj o) →
      update_tauri_config platform config_path (some content) =
        ⟨1, [], [tracebackMsg], some content, .applyTypeError⟩) := by
  constructor
  · intro hl
    simp [update_tauri_config, hp, hl]
  · intro v hl hno
    simp [update_tauri_config, hp, hl, applyResources_non_obj ps v hno]

/-- Witness for the amended C3 at unparseable content. -/
theorem run_unparseable_or_non_object_witness :
    update_tauri_config "linux-x86_64" "tauri.conf.json" (some "\x7binvalid") =
      ⟨1, [], [tracebackMsg], some "\x7binvalid", .parseError⟩ :=
  (run_unparseable_or_non_object "linux-x86_64" "tauri.conf.json" "\x7binvalid"
    ["binaries/linux-x86_64/ffmpeg", "binaries/linux-x86_64/ffprobe"] rfl).1 rfl

/-- C8 counterexample: a successful run prints three stdout lines (status
message, platform, resources — lines 68-70 of the script), not the two
lines the claim states. -/
theorem run_success_two_lines_cex :
    (update_tauri_config "linux-x86_64" "tauri.conf.json" (some "\x7b\x7d")).outcome =
      .success ∧
    (update_tauri_config "linux-x86_64" "tauri.conf.json" (some "\x7b\x7d")).exitCode = 0 ∧
    (update_tauri_config "linux-x86_64" "tauri.conf.json" (some "\x7b\x7d")).stdoutLines.length
      = 3 ∧
    (update_tauri_config "linux-x86_64" "tauri.conf.json" (some "\x7b\x7d")).stdoutLines.length
      ≠ 2 := by
  refine ⟨rfl, rfl, rfl, fun h => ?_⟩
  rw [show (update_tauri_config "linux-x86_64" "tauri.conf.json"
    (some "\x7b\x7d")).stdoutLines.length = 3 from rfl] at h
  omega

/-- C8 amended: on every successful run the stdout confirmation is
exactly three lines — the status message naming the config path, the
platform line, and the resolved resource list — stderr is empty and the
exit code is zero. -/
theorem run_success_output (platform config_path content : String)
    (h : (update_tauri_config platform config_path (some content)).outcome = .success) :
    ∃ ps, lookupTable platform_resources platform = some ps ∧
      (update_tauri_config platform config_path (some content)).stdoutLines =
        ["Successfully updated " ++ config_path, "Platform: " ++ platform,
         "Resources: " ++ pyListRepr ps] ∧
      (update_tauri_config platform config_path (some content)).stdoutLines.length = 3 ∧
      (update_tauri_config platform config_path (some content)).exitCode = 0 ∧
      (update_tauri_config platform config_path (some content)).stderrLines = [] := by
  cases hp : lookupTable platform_resources platform with
  | none =>
    have hout : (update_tauri_config platform config_path (some content)).outcome =
        .unknownPlatform := by simp [update_tauri_config, hp]
    rw [hout] at h
    exact Outcome.noConfusion h
  | some ps =>
    cases hl : loadJson content.data with
    | none =>
      have hout : (update_tauri_config platform config_path (some content)).outcome =
          .parseError := by simp [update_tauri_config, hp, hl]
      rw [hout] at h
      exact Outcome.noConfusion h
    | some v =>
      cases ha : applyResources ps v with
      | error e =>
        have hout : (update_tauri_config platform config_path (some content)).outcome =
            .applyTypeError := by simp [update_tauri_config, hp, hl, ha]
        rw [hout] at h
        exact Outcome.noConfusion h
      | ok v2 =>
        exact ⟨ps, rfl, by simp [update_tauri_config, hp, hl, ha]⟩

/-- Witness for the amended C8 on a successful concrete run. -/
theorem run_success_output_witness :
    ∃ ps, lookupTable platform_resources "linux-x86_64" = some ps ∧
      (update_tauri_config "linux-x86_64" "tauri.conf.json" (some "\x7b\x7d")).stdoutLines =
        ["Successfully updated " ++ "tauri.conf.json", "Platform: " ++ "linux-x86_64",
         "Resources: " ++ pyListRepr ps] ∧
      (update_tauri_config "linux-x86_64" "tauri.conf.json"
        (some "\x7b\x7d")).stdoutLines.length = 3 ∧
      (update_tauri_config "linux-x86_64" "tauri.conf.json" (some "\x7b\x7d")).exitCode = 0 ∧
      (update_tauri_config "linux-x86_64" "tauri.conf.json" (some "\x7b\x7d")).stderrLines =
        [] :=
  run_success_output "linux-x86_64" "tauri.conf.json" "\x7b\x7d" rfl

/-- C10: when the loaded document has a top-level `bundle` key whose
value is not an object, the patching step raises a type error (it does
not silently replace the value), the run exits with code 1 and the file
on disk is left unchanged, the write step never being reached. -/
theorem run_bundle_not_object (platform config_path content : String) (ps : List String)
    (o : JObj) (b : JValue)
    (hp : lookupTable platform_resources platform = some ps)
    (hl : loadJson content.data = some (.obj o))
    (hb : lookupKey o "bundle" = some b)
    (hno : ∀ bo : JObj, b ≠ .obj bo) :
    applyResources ps (.obj o) = .error .typeError ∧
    update_tauri_config platform config_path (some content) =
      ⟨1, [], [tracebackMsg], some content, .applyTypeError⟩ := by
  have hk : hasKey o "bundle" = true := hasKey_of_lookupKey o _ b hb
  have happ : applyResources ps (.obj o) = .error .typeError := by
    simp only [applyResources, setBundleResources, ensureBundle, if_pos hk, hb]
    cases b with
    | obj bo => exact absurd rfl (hno bo)
    | null => rfl
    | bool x => rfl
    | num x => rfl
    | str x => rfl
    | arr x => rfl
  exact ⟨happ, by simp [update_tauri_config, hp, hl, happ]⟩

/-- Witness for C10 on a document whose bundle value is the number 5. -/
theorem run_bundle_not_object_witness :
    update_tauri_config "linux-x86_64" "tauri.conf.json" (some "\x7b\"bundle\": 5\x7d") =
      ⟨1, [], [tracebackMsg], some "\x7b\"bundle\": 5\x7d", .applyTypeError⟩ :=
  (run_bundle_not_object "linux-x86_64" "tauri.conf.json" "\x7b\"bundle\": 5\x7d"
    ["binaries/linux-x86_64/ffmpeg", "binaries/linux-x86_64/ffprobe"]
    (.cons "bundle" (.num 5) .nil) (.num 5) rfl rfl rfl
    (fun _ h => JValue.noConfusion h)).2

end Zapcut

namespace Zapcut

/-! ### Whitespace and character facts -/

theorem skipws_cons_ws (c : Char) (l : List Char) (h : isWsChar c = true) :
    skipws (c :: l) = skipws l := by
  simp [skipws, h]

theorem skipws_cons_not_ws (c : Char) (l : List Char) (h : isWsChar c = false) :
    skipws (c :: l) = c :: l := by
  simp [skipws, h]

theorem skipws_replicate_space (n : Nat) (l : List Char) :
    skipws (List.replicate n ' ' ++ l) = skipws l := by
  induction n with
  | zero => rfl
  | succ m ih => simpa [List.replicate_succ, skipws, isWsChar] using ih

theorem skipws_indent (d : Nat) (l : List Char) :
    skipws (indentChars d ++ l) = skipws l :=
  skipws_replicate_space (2 * d) l

theorem digitChar_toNat (m : Nat) (h : m < 10) : (digitChar m).toNat = 48 + m := by
  interval_cases m <;> rfl

theorem digitChar_isDigit (m : Nat) (h : m < 10) : (digitChar m).isDigit = true := by
  interval_cases m <;> rfl

theorem hexVal_hexDigitChar (m : Nat) (h : m < 16) : hexVal (hexDigitChar m) = some m := by
  interval_cases m <;> rfl

theorem isDigit_toNat (c : Char) (h : c.isDigit = true) : 48 ≤ c.toNat ∧ c.toNat ≤ 57 := by
  simp only [Char.isDigit, Bool.and_eq_true, decide_eq_true_eq] at h
  obtain ⟨h1, h2⟩ := h
  exact ⟨h1, h2⟩

theorem isWsChar_eq_false_of_isDigit (c : Char) (h : c.isDigit = true) :
    isWsChar c = false := by
  by_contra hw
  rw [Bool.not_eq_false] at hw
  simp only [isWsChar, Bool.or_eq_true, decide_eq_true_eq] at hw
  rcases hw with ((hc | hc) | hc) | hc <;> (subst hc; exact absurd h (by decide))

end Zapcut

namespace Zapcut

/-! ### Decimal digits round trip -/

theorem natToCharsAux_zero (f : Nat) : natToCharsAux f 0 = [] := by
  cases f <;> simp [natToCharsAux]

theorem natToCharsAux_digits (f : Nat) : ∀ (n : Nat) (c : Char),
    c ∈ natToCharsAux f n → c.isDigit = true := by
  induction f with
  | zero => intro n c hc; simp [natToCharsAux] at hc
  | succ g ih =>
    intro n c hc
    simp only [natToCharsAux] at hc
    by_cases hn : n = 0
    · rw [if_pos hn] at hc; simp at hc
    · rw [if_neg hn] at hc
      rcases List.mem_append.mp hc with hm | hm
      · exact ih (n / 10) c hm
      · rw [List.mem_singleton.mp hm]
        exact digitChar_isDigit _ (Nat.mod_lt n (by omega))

theorem natToCharsAux_head (f : Nat) : ∀ n : Nat, n ≠ 0 → n < f →
    ∃ c t, natToCharsAux f n = c :: t ∧ c.isDigit = true ∧ c ≠ '0' := by
  induction f with
  | zero => intro n _ h; omega
  | succ g ih =>
    intro n hn hlt
    simp only [natToCharsAux, if_neg hn]
    by_cases hq : n / 10 = 0
    · rw [hq, natToCharsAux_zero, List.nil_append]
      have hm : n % 10 = n := Nat.mod_eq_of_lt (by omega)
      refine ⟨digitChar (n % 10), [], rfl, digitChar_isDigit _ (Nat.mod_lt n (by omega)), ?_⟩
      intro hc
      have := congrArg Char.toNat hc
      rw [digitChar_toNat _ (Nat.mod_lt n (by omega))] at this
      rw [show ('0').toNat = 48 from rfl] at this
      omega
    · obtain ⟨c, t, heq, hdig, hne⟩ := ih (n / 10) hq (by omega)
      exact ⟨c, t ++ [digitChar (n % 10)], by rw [heq]; rfl, hdig, hne⟩

theorem parseDigitsAux_stop (acc : Nat) (rest : List Char) (h : headIsDigit rest = false) :
    parseDigitsAux acc rest = (acc, rest) := by
  cases rest with
  | nil => rfl
  | cons c r =>
    simp only [headIsDigit] at h
    simp [parseDigitsAux, h]

theorem parseDigitsAux_append (ds : List Char) : ∀ (acc : Nat) (rest : List Char),
    (∀ c ∈ ds, c.isDigit = true) →
    parseDigitsAux acc (ds ++ rest) =
      parseDigitsAux (List.foldl (fun a c => a * 10 + (c.toNat - 48)) acc ds) rest := by
  induction ds with
  | nil => intro acc rest _; rfl
  | cons c t ih =>
    intro acc rest hd
    have hc : c.isDigit = true := hd c (List.mem_cons_self c t)
    simp only [List.cons_append, parseDigitsAux, hc, if_pos, List.append_eq]
    rw [ih _ rest fun x hx => hd x (List.mem_cons_of_mem c hx)]
    rfl

theorem foldl_digits_natToCharsAux (f : Nat) : ∀ (n acc : Nat), n < f →
    List.foldl (fun a c => a * 10 + (c.toNat - 48)) acc (natToCharsAux f n) =
      acc * 10 ^ (natToCharsAux f n).length + n := by
  induction f with
  | zero => intro n acc h; omega
  | succ g ih =>
    intro n acc hlt
    by_cases hn : n = 0
    · subst hn
      simp [natToCharsAux]
    · simp only [natToCharsAux, if_neg hn]
      rw [List.foldl_append, List.length_append]
      have hq : n / 10 < g := by
        have h1 : n / 10 < n := Nat.div_lt_self (by omega) (by omega)
        omega
      rw [ih (n / 10) acc hq]
      simp only [List.foldl_cons, List.foldl_nil, List.length_singleton]
      rw [digitChar_toNat _ (Nat.mod_lt n (by omega))]
      rw [pow_succ, ← mul_assoc]
      have h48 : 48 + n % 10 - 48 = n % 10 := by omega
      rw [h48]
      generalize acc * 10 ^ (natToCharsAux g (n / 10)).length = y
      omega

theorem natToChars_head (n : Nat) :
    ∃ c t, natToChars n = c :: t ∧ c.isDigit = true := by
  by_cases hn : n = 0
  · subst hn
    exact ⟨'0', [], rfl, by decide⟩
  · obtain ⟨c, t, heq, hdig, _⟩ := natToCharsAux_head (n + 1) n hn (by omega)
    exact ⟨c, t, by simp [natToChars, hn, heq], hdig⟩

theorem parseNumNat_natToChars (n : Nat) (rest : List Char)
    (h : headIsDigit rest = false) :
    parseNumNat (natToChars n ++ rest) = some (n, rest) := by
  by_cases hn : n = 0
  · subst hn; simp only [natToChars, if_pos rfl]; rfl
  · obtain ⟨c, t, heq, hdig, hne0⟩ := natToCharsAux_head (n + 1) n hn (by omega)
    have hall : ∀ x ∈ c :: t, x.isDigit = true := by
      intro x hx
      exact natToCharsAux_digits (n + 1) n x (heq ▸ hx)
    simp only [natToChars, if_neg hn, heq, List.cons_append, parseNumNat, if_neg hne0,
      hdig, if_pos]
    have hfold := foldl_digits_natToCharsAux (n + 1) n 0 (by omega)
    rw [heq] at hfold
    simp only [List.foldl_cons, Nat.zero_mul, Nat.zero_add] at hfold
    rw [parseDigitsAux_append t _ rest fun x hx => hall x (List.mem_cons_of_mem c hx),
      parseDigitsAux_stop _ _ h]
    rw [hfold]

theorem ne_of_isDigit (c : Char) (h : c.isDigit = true) (d : Char)
    (hd : d.isDigit = false) : c ≠ d := by
  intro he
  subst he
  rw [h] at hd
  exact Bool.noConfusion hd

end Zapcut

namespace Zapcut

/-! ### String escaping round trip -/

theorem hexDigits4_encode (c : Char) (h : c.toNat < 32) :
    hexDigits4 '0' '0' (hexDigitChar (c.toNat / 16)) (hexDigitChar (c.toNat % 16)) =
      some c.toNat := by
  have ha : c.toNat / 16 < 16 := by omega
  have hb : c.toNat % 16 < 16 := by omega
  have harith : 4096 * 0 + 256 * 0 + 16 * (c.toNat / 16) + c.toNat % 16 = c.toNat := by omega
  simp only [hexDigits4, hexVal_hexDigitChar _ ha, hexVal_hexDigitChar _ hb]
  exact congrArg some harith

theorem parseStrAux_esc (s : List Char) : ∀ rest : List Char,
    parseStrAux (escList s ++ ('"' :: rest)) = some (s, rest) := by
  induction s with
  | nil => intro rest; rfl
  | cons c t ih =>
    intro rest
    simp only [escList, List.append_assoc]
    by_cases h1 : c = '\\'
    · subst h1
      show (parseStrAux (escList t ++ ('"' :: rest))).map (fun p => ('\\' :: p.1, p.2)) =
        some ('\\' :: t, rest)
      rw [ih rest]; rfl
    · by_cases h2 : c = '"'
      · subst h2
        show (parseStrAux (escList t ++ ('"' :: rest))).map (fun p => ('"' :: p.1, p.2)) =
          some ('"' :: t, rest)
        rw [ih rest]; rfl
      · by_cases h3 : c = '\n'
        · subst h3
          show (parseStrAux (escList t ++ ('"' :: rest))).map (fun p => ('\n' :: p.1, p.2)) =
            some ('\n' :: t, rest)
          rw [ih rest]; rfl
        · by_cases h4 : c = '\t'
          · subst h4
            show (parseStrAux (escList t ++ ('"' :: rest))).map
              (fun p => ('\t' :: p.1, p.2)) = some ('\t' :: t, rest)
            rw [ih rest]; rfl
          · by_cases h5 : c = '\r'
            · subst h5
              show (parseStrAux (escList t ++ ('"' :: rest))).map
                (fun p => ('\r' :: p.1, p.2)) = some ('\r' :: t, rest)
              rw [ih rest]; rfl
            · by_cases h6 : c = '\x08'
              · subst h6
                show (parseStrAux (escList t ++ ('"' :: rest))).map
                  (fun p => ('\x08' :: p.1, p.2)) = some ('\x08' :: t, rest)
                rw [ih rest]; rfl
              · by_cases h7 : c = '\x0c'
                · subst h7
                  show (parseStrAux (escList t ++ ('"' :: rest))).map
                    (fun p => ('\x0c' :: p.1, p.2)) = some ('\x0c' :: t, rest)
                  rw [ih rest]; rfl
                · by_cases h8 : c.toNat < 32
                  · simp only [escChar, if_neg h1, if_neg h2, if_neg h3, if_neg h4,
                      if_neg h5, if_neg h6, if_neg h7, if_pos h8, List.cons_append,
                      List.nil_append]
                    have step : parseStrAux ('\\' :: 'u' :: '0' :: '0' ::
                        hexDigitChar (c.toNat / 16) :: hexDigitChar (c.toNat % 16) ::
                        (escList t ++ '"' :: rest)) =
                        match hexDigits4 '0' '0' (hexDigitChar (c.toNat / 16))
                            (hexDigitChar (c.toNat % 16)) with
                        | some m => (parseStrAux (escList t ++ '"' :: rest)).map
                            (fun p => (Char.ofNat m :: p.1, p.2))
                        | none => none := rfl
                    rw [step, hexDigits4_encode c h8]
                    show (parseStrAux (escList t ++ ('"' :: rest))).map
                      (fun p => (Char.ofNat c.toNat :: p.1, p.2)) = some (c :: t, rest)
                    rw [ih rest, Char.ofNat_toNat]
                    rfl
                  · simp only [escChar, if_neg h1, if_neg h2, if_neg h3, if_neg h4,
                      if_neg h5, if_neg h6, if_neg h7, if_neg h8, List.cons_append,
                      List.nil_append]
                    simp only [parseStrAux, if_neg h2, if_neg h1, if_neg h8]
                    rw [ih rest]
                    rfl

end Zapcut

namespace Zapcut

/-! ### Shape of serializer output -/

theorem dumpV_head (d : Nat) (v : JValue) :
    ∃ c t, dumpV d v = c :: t ∧ isWsChar c = false ∧ c ≠ ']' := by
  cases v with
  | null => exact ⟨'n', _, rfl, by decide, by decide⟩
  | bool b => cases b with
    | true => exact ⟨'t', _, rfl, by decide, by decide⟩
    | false => exact ⟨'f', _, rfl, by decide, by decide⟩
  | num n =>
    show ∃ c t, intToChars n = c :: t ∧ _
    rw [intToChars]
    by_cases hn : n < 0
    · rw [if_pos hn]
      exact ⟨'-', _, rfl, by decide, by decide⟩
    · rw [if_neg hn]
      obtain ⟨c, t, heq, hdig⟩ := natToChars_head n.toNat
      exact ⟨c, t, heq, isWsChar_eq_false_of_isDigit c hdig,
        ne_of_isDigit c hdig ']' (by decide)⟩
  | str s => exact ⟨'"', _, rfl, by decide, by decide⟩
  | arr xs => cases xs with
    | nil => exact ⟨'[', _, rfl, by decide, by decide⟩
    | cons x t => exact ⟨'[', _, rfl, by decide, by decide⟩
  | obj fs => cases fs with
    | nil => exact ⟨'\x7b', _, rfl, by decide, by decide⟩
    | cons k v t => exact ⟨'\x7b', _, rfl, by decide, by decide⟩

theorem skipws_dumpV (d : Nat) (v : JValue) (rest : List Char) :
    skipws (dumpV d v ++ rest) = dumpV d v ++ rest := by
  obtain ⟨c, t, heq, hws, _⟩ := dumpV_head d v
  rw [heq, List.cons_append, skipws_cons_not_ws _ _ hws]

theorem dumpV_length_pos (d : Nat) (v : JValue) : 1 ≤ (dumpV d v).length := by
  obtain ⟨c, t, heq, _, _⟩ := dumpV_head d v
  rw [heq]
  simp

theorem headIsDigit_arrTail (d : Nat) (xs : JArr) (r : List Char) :
    headIsDigit (dumpArrTail d xs ++ '\n' :: r) = false := by
  cases xs <;> rfl

theorem headIsDigit_objTail (d : Nat) (fs : JObj) (r : List Char) :
    headIsDigit (dumpObjTail d fs ++ '\n' :: r) = false := by
  cases fs <;> rfl

/-! ### Accumulated-object algebra -/

theorem appendObj_nil : ∀ o : JObj, appendObj o .nil = o
  | .nil => rfl
  | .cons k v tl => by rw [appendObj, appendObj_nil tl]

theorem appendObj_assoc : ∀ a b c : JObj,
    appendObj (appendObj a b) c = appendObj a (appendObj b c)
  | .nil, _, _ => rfl
  | .cons k v tl, b, c => by
    simp only [appendObj]
    rw [appendObj_assoc tl b c]

theorem setKey_not_has : ∀ (o : JObj) (k : String) (v : JValue), hasKey o k = false →
    setKey o k v = appendObj o (.cons k v .nil)
  | .nil, k, v, _ => rfl
  | .cons k0 v0 tl, k, v, h => by
    simp only [hasKey, Bool.or_eq_false_iff, decide_eq_false_iff_not] at h
    simp only [setKey, if_neg h.1, appendObj]
    rw [setKey_not_has tl k v h.2]

theorem hasKey_setKey : ∀ (o : JObj) (k : String) (v : JValue) (k2 : String),
    hasKey (setKey o k v) k2 = (hasKey o k2 || decide (k = k2))
  | .nil, k, v, k2 => by simp [setKey, hasKey]
  | .cons k0 v0 tl, k, v, k2 => by
    simp only [setKey]
    by_cases hk : k0 = k
    · subst hk
      rw [if_pos rfl]
      simp only [hasKey]
      cases hd : decide (k0 = k2) <;> simp [hd]
    · rw [if_neg hk]
      simp only [hasKey]
      rw [hasKey_setKey tl k v k2]
      cases hd : decide (k0 = k2) <;> simp [hd]

/-! ### The invariant that documents have no duplicated keys -/

theorem nodupV_lookupKey : ∀ (o : JObj) (k : String) (v : JValue), nodupO o = true →
    lookupKey o k = some v → nodupV v = true
  | .nil, _, _, _, h => by simp [lookupKey] at h
  | .cons k0 v0 tl, k, v, hnd, h => by
    simp only [nodupO, Bool.and_eq_true] at hnd
    simp only [lookupKey] at h
    by_cases hk : k0 = k
    · rw [if_pos hk] at h
      cases h
      exact hnd.1.2
    · rw [if_neg hk] at h
      exact nodupV_lookupKey tl k v hnd.2 h

theorem nodupO_setKey : ∀ (o : JObj) (k : String) (v : JValue), nodupO o = true →
    nodupV v = true → nodupO (setKey o k v) = true
  | .nil, k, v, _, hv => by simp [setKey, nodupO, hasKey, hv]
  | .cons k0 v0 tl, k, v, hnd, hv => by
    simp only [nodupO, Bool.and_eq_true] at hnd
    obtain ⟨⟨hk0, hv0⟩, htl⟩ := hnd
    simp only [setKey]
    by_cases hk : k0 = k
    · subst hk
      rw [if_pos rfl]
      simp only [nodupO, Bool.and_eq_true]
      exact ⟨⟨hk0, hv⟩, htl⟩
    · rw [if_neg hk]
      simp only [nodupO, Bool.and_eq_true]
      refine ⟨⟨?_, hv0⟩, nodupO_setKey tl k v htl hv⟩
      rw [hasKey_setKey tl k v k0]
      have hk0f : hasKey tl k0 = false := by
        cases hb : hasKey tl k0
        · rfl
        · rw [hb] at hk0; exact absurd hk0 (by decide)
      have hd : decide (k = k0) = false := by
        simp only [decide_eq_false_iff_not]
        exact fun h => hk h.symm
      rw [hk0f, hd]
      rfl

theorem nodupA_strList : ∀ l : List String, nodupA (strList l) = true
  | [] => rfl
  | s :: t => by simp [strList, nodupA, nodupV, nodupA_strList t]

end Zapcut

namespace Zapcut

/-! ### One-step unfolding equations of the parser -/

theorem parseVal_lbracket (f : Nat) (T : List Char) :
    parseVal (f+1) ('[' :: T) = (parseArrBody f T).map (fun p => (JValue.arr p.1, p.2)) := rfl

theorem parseVal_lbrace (f : Nat) (T : List Char) :
    parseVal (f+1) ('\x7b' :: T) =
      (parseObjBody f .nil T).map (fun p => (JValue.obj p.1, p.2)) := rfl

theorem parseVal_quote (f : Nat) (T : List Char) :
    parseVal (f+1) ('"' :: T) =
      (parseStrAux T).map (fun p => (JValue.str (String.mk p.1), p.2)) := rfl

theorem parseVal_minus (f : Nat) (T : List Char) :
    parseVal (f+1) ('-' :: T) =
      (parseNumNat T).map (fun p => (JValue.num (-(p.1 : Int)), p.2)) := rfl

theorem parseVal_digit (f : Nat) (c : Char) (r : List Char) (h : c.isDigit = true) :
    parseVal (f+1) (c :: r) =
      (parseNumNat (c :: r)).map (fun p => (JValue.num (p.1 : Int), p.2)) := by
  have h1 : ¬(c = '\x7b') := ne_of_isDigit c h '\x7b' rfl
  have h2 : ¬(c = '[') := ne_of_isDigit c h '[' rfl
  have h3 : ¬(c = '"') := ne_of_isDigit c h '"' rfl
  have h4 : ¬(c = '-') := ne_of_isDigit c h '-' rfl
  simp only [parseVal, if_neg h1, if_neg h2, if_neg h3, if_neg h4, if_pos h]

theorem parseMember_quote (f : Nat) (acc : JObj) (Y : List Char) :
    parseMember (f+1) acc ('"' :: Y) = (parseStrAux Y).bind (fun p =>
      match skipws p.2 with
      | [] => none
      | c2 :: r3 =>
        if c2 = ':' then
          (parseVal f (skipws r3)).bind fun q =>
            parseObjRest f (setKey acc (String.mk p.1) q.1) q.2
        else none) := rfl

theorem parseObjBody_step (f : Nat) (acc : JObj) (l : List Char) :
    parseObjBody (f+1) acc l =
      match skipws l with
      | [] => none
      | c :: r => if c = '\x7d' then some (acc, r) else parseMember f acc (c :: r) := rfl

theorem parseArrBody_step (f : Nat) (l : List Char) :
    parseArrBody (f+1) l =
      match skipws l with
      | [] => none
      | c :: r =>
        if c = ']' then some (.nil, r)
        else (parseVal f (c :: r)).bind fun p =>
          (parseArrRest f p.2).map fun q => (.cons p.1 q.1, q.2) := rfl

theorem parseArrRest_step (f : Nat) (l : List Char) :
    parseArrRest (f+1) l =
      match skipws l with
      | [] => none
      | c :: r =>
        if c = ']' then some (.nil, r)
        else if c = ',' then
          (parseVal f (skipws r)).bind fun p =>
            (parseArrRest f p.2).map fun q => (.cons p.1 q.1, q.2)
        else none := rfl

theorem parseObjRest_step (f : Nat) (acc : JObj) (l : List Char) :
    parseObjRest (f+1) acc l =
      match skipws l with
      | [] => none
      | c :: r =>
        if c = '\x7d' then some (acc, r)
        else if c = ',' then parseMember f acc (skipws r)
        else none := rfl

theorem skipws_dumpStr (s : String) (X : List Char) :
    skipws (dumpStr s ++ X) = dumpStr s ++ X := rfl

theorem dumpStr_length (s : String) :
    (dumpStr s).length = (escList s.data).length + 2 := by
  simp [dumpStr]

end Zapcut

namespace Zapcut

/-- Round trip of the serializer and the parser, proved for the value
parser and the four element parsers simultaneously by strong induction on
the fuel: parsing a serialized document (with any suffix that does not
start with a digit) returns exactly the document and the suffix, for
every document without duplicated object keys. -/
theorem parse_dump_all : ∀ fuel : Nat,
    (∀ (d : Nat) (v : JValue) (rest : List Char), nodupV v = true →
      headIsDigit rest = false → (dumpV d v ++ rest).length < fuel →
      parseVal fuel (dumpV d v ++ rest) = some (v, rest)) ∧
    (∀ (d dc : Nat) (x : JValue) (xs : JArr) (rest : List Char),
      nodupV x = true → nodupA xs = true →
      ('\n' :: (indentChars d ++ (dumpV d x ++ (dumpArrTail d xs ++
        ('\n' :: (indentChars dc ++ (']' :: rest))))))).length < fuel →
      parseArrBody fuel ('\n' :: (indentChars d ++ (dumpV d x ++ (dumpArrTail d xs ++
        ('\n' :: (indentChars dc ++ (']' :: rest))))))) = some (.cons x xs, rest)) ∧
    (∀ (d dc : Nat) (xs : JArr) (rest : List Char), nodupA xs = true →
      (dumpArrTail d xs ++ ('\n' :: (indentChars dc ++ (']' :: rest)))).length < fuel →
      parseArrRest fuel (dumpArrTail d xs ++ ('\n' :: (indentChars dc ++ (']' :: rest)))) =
        some (xs, rest)) ∧
    (∀ (d dc : Nat) (k : String) (v : JValue) (fs : JObj) (acc : JObj) (rest : List Char),
      nodupV v = true → nodupO fs = true → hasKey acc k = false → hasKey fs k = false →
      (∀ k2, hasKey acc k2 = true → hasKey fs k2 = false) →
      (dumpStr k ++ (':' :: ' ' :: (dumpV d v ++ (dumpObjTail d fs ++
        ('\n' :: (indentChars dc ++ ('\x7d' :: rest))))))).length < fuel →
      parseMember fuel acc (dumpStr k ++ (':' :: ' ' :: (dumpV d v ++ (dumpObjTail d fs ++
        ('\n' :: (indentChars dc ++ ('\x7d' :: rest))))))) =
        some (appendObj acc (.cons k v fs), rest)) ∧
    (∀ (d dc : Nat) (fs : JObj) (acc : JObj) (rest : List Char), nodupO fs = true →
      (∀ k2, hasKey acc k2 = true → hasKey fs k2 = false) →
      (dumpObjTail d fs ++ ('\n' :: (indentChars dc ++ ('\x7d' :: rest)))).length < fuel →
      parseObjRest fuel acc (dumpObjTail d fs ++ ('\n' :: (indentChars dc ++
        ('\x7d' :: rest)))) = some (appendObj acc fs, rest)) := by
  intro fuel
  induction fuel using Nat.strong_induction_on with
  | _ fuel ih =>
  refine ⟨?_, ?_, ?_, ?_, ?_⟩
  · -- the value parser
    intro d v rest hnd hdig hlen
    cases fuel with
    | zero => exact absurd hlen (Nat.not_lt_zero _)
    | succ g =>
      cases v with
      | null => rfl
      | bool b =>
        cases b with
        | true => rfl
        | false => rfl
      | num n =>
        by_cases hn : n < 0
        · have hform : dumpV d (.num n) ++ rest = '-' :: (natToChars n.natAbs ++ rest) := by
            simp [dumpV, intToChars, if_pos hn]
          rw [hform, parseVal_minus, parseNumNat_natToChars _ _ hdig]
          simp only [Option.map_some']
          have harith : -((n.natAbs : Int)) = n := by omega
          rw [harith]
        · have hform : dumpV d (.num n) ++ rest = natToChars n.toNat ++ rest := by
            simp [dumpV, intToChars, if_neg hn]
          obtain ⟨c, t, heq, hdigc⟩ := natToChars_head n.toNat
          rw [hform, heq, List.cons_append, parseVal_digit g c _ hdigc, ← List.cons_append,
            ← heq, parseNumNat_natToChars _ _ hdig]
          simp only [Option.map_some']
          have harith : ((n.toNat : Int)) = n := by omega
          rw [harith]
      | str s =>
        have hform : dumpV d (.str s) ++ rest = '"' :: (escList s.data ++ ('"' :: rest)) := by
          simp [dumpV, dumpStr, List.cons_append, List.append_assoc]
        rw [hform, parseVal_quote, parseStrAux_esc]
        rfl
      | arr xs =>
        cases xs with
        | nil =>
          have h2 : 2 ≤ g := by
            simp only [dumpV, List.length_append, List.length_cons, List.length_nil] at hlen
            omega
          obtain ⟨g2, rfl⟩ : ∃ g2, g = g2 + 1 := ⟨g - 1, by omega⟩
          rfl
        | cons x xs2 =>
          simp only [nodupV, nodupA, Bool.and_eq_true] at hnd
          obtain ⟨hx, hxs⟩ := hnd
          have hform : dumpV d (.arr (.cons x xs2)) ++ rest =
              '[' :: ('\n' :: (indentChars (d+1) ++ (dumpV (d+1) x ++ (dumpArrTail (d+1) xs2 ++
                ('\n' :: (indentChars d ++ (']' :: rest))))))) := by
            simp [dumpV, List.cons_append, List.append_assoc]
          have hlenEq := congrArg List.length hform
          simp only [List.length_append, List.length_cons] at hlenEq hlen
          have hlen2 : ('\n' :: (indentChars (d+1) ++ (dumpV (d+1) x ++ (dumpArrTail (d+1) xs2 ++
              ('\n' :: (indentChars d ++ (']' :: rest))))))).length < g := by
            simp only [List.length_append, List.length_cons]
            omega
          rw [hform, parseVal_lbracket, (ih g (by omega)).2.1 (d+1) d x xs2 rest hx hxs hlen2]
          rfl
      | obj fs =>
        cases fs with
        | nil =>
          have h2 : 2 ≤ g := by
            simp only [dumpV, List.length_append, List.length_cons, List.length_nil] at hlen
            omega
          obtain ⟨g2, rfl⟩ : ∃ g2, g = g2 + 1 := ⟨g - 1, by omega⟩
          rfl
        | cons k v fs2 =>
          simp only [nodupV, nodupO, Bool.and_eq_true, Bool.not_eq_true'] at hnd
          obtain ⟨⟨hk, hv⟩, hfs⟩ := hnd
          have hform : dumpV d (.obj (.cons k v fs2)) ++ rest =
              '\x7b' :: ('\n' :: (indentChars (d+1) ++ (dumpStr k ++ (':' :: ' ' ::
                (dumpV (d+1) v ++ (dumpObjTail (d+1) fs2 ++
                  ('\n' :: (indentChars d ++ ('\x7d' :: rest))))))))) := by
            simp [dumpV, List.cons_append, List.append_assoc]
          have hlenEq := congrArg List.length hform
          simp only [List.length_append, List.length_cons, dumpStr_length] at hlenEq hlen
          have hg : 4 ≤ g := by
            have := dumpV_length_pos (d+1) v
            omega
          obtain ⟨g2, rfl⟩ : ∃ g2, g = g2 + 1 := ⟨g - 1, by omega⟩
          have hcons : dumpStr k ++ (':' :: ' ' :: (dumpV (d+1) v ++ (dumpObjTail (d+1) fs2 ++
              ('\n' :: (indentChars d ++ ('\x7d' :: rest)))))) =
              '"' :: (escList k.data ++ ('"' :: (':' :: ' ' :: (dumpV (d+1) v ++
                (dumpObjTail (d+1) fs2 ++ ('\n' :: (indentChars d ++ ('\x7d' :: rest)))))))) := by
            simp [dumpStr, List.cons_append, List.append_assoc]
          have hbody : parseObjBody (g2+1) .nil ('\n' :: (indentChars (d+1) ++ (dumpStr k ++
              (':' :: ' ' :: (dumpV (d+1) v ++ (dumpObjTail (d+1) fs2 ++
                ('\n' :: (indentChars d ++ ('\x7d' :: rest))))))))) =
              parseMember g2 .nil (dumpStr k ++ (':' :: ' ' :: (dumpV (d+1) v ++
                (dumpObjTail (d+1) fs2 ++ ('\n' :: (indentChars d ++ ('\x7d' :: rest))))))) := by
            rw [parseObjBody_step, skipws_cons_ws '\n' _ rfl, skipws_indent, skipws_dumpStr,
              hcons]
            rfl
          have hlen4 : (dumpStr k ++ (':' :: ' ' :: (dumpV (d+1) v ++ (dumpObjTail (d+1) fs2 ++
              ('\n' :: (indentChars d ++ ('\x7d' :: rest))))))).length < g2 := by
            simp only [List.length_append, List.length_cons, dumpStr_length]
            omega
          have hnilkey : ∀ k2, hasKey JObj.nil k2 = true → hasKey fs2 k2 = false := by
            intro k2 h2
            simp [hasKey] at h2
          rw [hform, parseVal_lbrace, hbody,
            (ih g2 (by omega)).2.2.2.1 (d+1) d k v fs2 .nil rest hv hfs rfl hk hnilkey hlen4]
          rfl
  · -- the array body parser (non-empty array)
    intro d dc x xs rest hx hxs hlen
    cases fuel with
    | zero => exact absurd hlen (Nat.not_lt_zero _)
    | succ g =>
      have hbody : parseArrBody (g+1) ('\n' :: (indentChars d ++ (dumpV d x ++
          (dumpArrTail d xs ++ ('\n' :: (indentChars dc ++ (']' :: rest))))))) =
          (parseVal g (dumpV d x ++ (dumpArrTail d xs ++ ('\n' :: (indentChars dc ++
            (']' :: rest)))))).bind fun p =>
            (parseArrRest g p.2).map fun q => (.cons p.1 q.1, q.2) := by
        obtain ⟨c, t, heq, hws, hnotrb⟩ := dumpV_head d x
        rw [parseArrBody_step, skipws_cons_ws '\n' _ rfl, skipws_indent, skipws_dumpV, heq,
          List.cons_append]
        simp only [if_neg hnotrb]
      have hposx := dumpV_length_pos d x
      simp only [List.length_append, List.length_cons] at hlen
      have hlen2 : (dumpV d x ++ (dumpArrTail d xs ++ ('\n' :: (indentChars dc ++
          (']' :: rest))))).length < g := by
        simp only [List.length_append, List.length_cons]
        omega
      have hlen3 : (dumpArrTail d xs ++ ('\n' :: (indentChars dc ++ (']' :: rest)))).length
          < g := by
        simp only [List.length_append, List.length_cons]
        omega
      rw [hbody, (ih g (by omega)).1 d x _ hx (headIsDigit_arrTail d xs _) hlen2]
      simp only [Option.some_bind]
      rw [(ih g (by omega)).2.2.1 d dc xs rest hxs hlen3]
      rfl
  · -- the array tail parser
    intro d dc xs rest hxs hlen
    cases fuel with
    | zero => exact absurd hlen (Nat.not_lt_zero _)
    | succ g =>
      cases xs with
      | nil =>
        rw [show dumpArrTail d JArr.nil ++ ('\n' :: (indentChars dc ++ (']' :: rest))) =
          '\n' :: (indentChars dc ++ (']' :: rest)) from rfl]
        rw [parseArrRest_step, skipws_cons_ws '\n' _ rfl, skipws_indent,
          skipws_cons_not_ws ']' _ rfl]
        rfl
      | cons y ys =>
        simp only [nodupA, Bool.and_eq_true] at hxs
        obtain ⟨hy, hys⟩ := hxs
        have hform : dumpArrTail d (.cons y ys) ++ ('\n' :: (indentChars dc ++ (']' :: rest))) =
            ',' :: ('\n' :: (indentChars d ++ (dumpV d y ++ (dumpArrTail d ys ++
              ('\n' :: (indentChars dc ++ (']' :: rest))))))) := by
          simp [dumpArrTail, List.cons_append, List.append_assoc]
        have hbody : parseArrRest (g+1) (',' :: ('\n' :: (indentChars d ++ (dumpV d y ++
            (dumpArrTail d ys ++ ('\n' :: (indentChars dc ++ (']' :: rest)))))))) =
            (parseVal g (dumpV d y ++ (dumpArrTail d ys ++ ('\n' :: (indentChars dc ++
              (']' :: rest)))))).bind fun p =>
              (parseArrRest g p.2).map fun q => (.cons p.1 q.1, q.2) := by
          rw [parseArrRest_step, skipws_cons_not_ws ',' _ rfl]
          show (parseVal g (skipws ('\n' :: (indentChars d ++ (dumpV d y ++ (dumpArrTail d ys ++
            ('\n' :: (indentChars dc ++ (']' :: rest))))))))).bind (fun p =>
              (parseArrRest g p.2).map fun q => (JArr.cons p.1 q.1, q.2)) =
            (parseVal g (dumpV d y ++ (dumpArrTail d ys ++ ('\n' :: (indentChars dc ++
              (']' :: rest)))))).bind fun p =>
              (parseArrRest g p.2).map fun q => (JArr.cons p.1 q.1, q.2)
          rw [skipws_cons_ws '\n' _ rfl, skipws_indent, skipws_dumpV]
        have hlenEq := congrArg List.length hform
        have hposy := dumpV_length_pos d y
        simp only [List.length_append, List.length_cons] at hlenEq hlen
        have hlen2 : (dumpV d y ++ (dumpArrTail d ys ++ ('\n' :: (indentChars dc ++
            (']' :: rest))))).length < g := by
          simp only [List.length_append, List.length_cons]
          omega
        have hlen3 : (dumpArrTail d ys ++ ('\n' :: (indentChars dc ++ (']' :: rest)))).length
            < g := by
          simp only [List.length_append, List.length_cons]
          omega
        rw [hform, hbody, (ih g (by omega)).1 d y _ hy (headIsDigit_arrTail d ys _) hlen2]
        simp only [Option.some_bind]
        rw [(ih g (by omega)).2.2.1 d dc ys rest hys hlen3]
        rfl
  · -- the object member parser
    intro d dc k v fs acc rest hv hfs hacck hfsk hdisj hlen
    cases fuel with
    | zero => exact absurd hlen (Nat.not_lt_zero _)
    | succ g =>
      have hcons : dumpStr k ++ (':' :: ' ' :: (dumpV d v ++ (dumpObjTail d fs ++
          ('\n' :: (indentChars dc ++ ('\x7d' :: rest)))))) =
          '"' :: (escList k.data ++ ('"' :: (':' :: ' ' :: (dumpV d v ++ (dumpObjTail d fs ++
            ('\n' :: (indentChars dc ++ ('\x7d' :: rest)))))))) := by
        simp [dumpStr, List.cons_append, List.append_assoc]
      have hdisj2 : ∀ k2, hasKey (setKey acc (String.mk k.data) v) k2 = true →
          hasKey fs k2 = false := by
        intro k2 h2
        rw [hasKey_setKey] at h2
        simp only [Bool.or_eq_true, decide_eq_true_eq] at h2
        rcases h2 with h2 | h2
        · exact hdisj k2 h2
        · have h3 : k = k2 := h2
          subst h3
          exact hfsk
      have hposv := dumpV_length_pos d v
      simp only [List.length_append, List.length_cons, dumpStr_length] at hlen
      have hlenV : (dumpV d v ++ (dumpObjTail d fs ++ ('\n' :: (indentChars dc ++
          ('\x7d' :: rest))))).length < g := by
        simp only [List.length_append, List.length_cons]
        omega
      have hlenO : (dumpObjTail d fs ++ ('\n' :: (indentChars dc ++ ('\x7d' :: rest)))).length
          < g := by
        simp only [List.length_append, List.length_cons]
        omega
      rw [hcons, parseMember_quote, parseStrAux_esc]
      simp only [Option.some_bind]
      show (parseVal g (skipws (' ' :: (dumpV d v ++ (dumpObjTail d fs ++
        ('\n' :: (indentChars dc ++ ('\x7d' :: rest)))))))).bind (fun q =>
          parseObjRest g (setKey acc (String.mk k.data) q.1) q.2) =
        some (appendObj acc (.cons k v fs), rest)
      rw [skipws_cons_ws ' ' _ rfl, skipws_dumpV,
        (ih g (by omega)).1 d v _ hv (headIsDigit_objTail d fs _) hlenV]
      simp only [Option.some_bind]
      rw [(ih g (by omega)).2.2.2.2 d dc fs (setKey acc (String.mk k.data) v) rest hfs hdisj2
        hlenO]
      rw [show String.mk k.data = k from rfl, setKey_not_has acc k v hacck, appendObj_assoc]
      rfl
  · -- the object tail parser
    intro d dc fs acc rest hfs hdisj hlen
    cases fuel with
    | zero => exact absurd hlen (Nat.not_lt_zero _)
    | succ g =>
      cases fs with
      | nil =>
        rw [appendObj_nil]
        rw [show dumpObjTail d JObj.nil ++ ('\n' :: (indentChars dc ++ ('\x7d' :: rest))) =
          '\n' :: (indentChars dc ++ ('\x7d' :: rest)) from rfl]
        rw [parseObjRest_step, skipws_cons_ws '\n' _ rfl, skipws_indent,
          skipws_cons_not_ws '\x7d' _ rfl]
        rfl
      | cons k v tl =>
        simp only [nodupO, Bool.and_eq_true, Bool.not_eq_true'] at hfs
        obtain ⟨⟨htlk, hv⟩, htl⟩ := hfs
        have hacck : hasKey acc k = false := by
          cases hb : hasKey acc k
          · rfl
          · have := hdisj k hb
            simp [hasKey] at this
        have hdisjtl : ∀ k2, hasKey acc k2 = true → hasKey tl k2 = false := by
          intro k2 h2
          have := hdisj k2 h2
          simp only [hasKey, Bool.or_eq_false_iff] at this
          exact this.2
        have hform : dumpObjTail d (.cons k v tl) ++ ('\n' :: (indentChars dc ++
            ('\x7d' :: rest))) =
            ',' :: ('\n' :: (indentChars d ++ (dumpStr k ++ (':' :: ' ' :: (dumpV d v ++
              (dumpObjTail d tl ++ ('\n' :: (indentChars dc ++ ('\x7d' :: rest))))))))) := by
          simp [dumpObjTail, List.cons_append, List.append_assoc]
        have hbody : parseObjRest (g+1) acc (',' :: ('\n' :: (indentChars d ++ (dumpStr k ++
            (':' :: ' ' :: (dumpV d v ++ (dumpObjTail d tl ++ ('\n' :: (indentChars dc ++
              ('\x7d' :: rest)))))))))) =
            parseMember g acc (dumpStr k ++ (':' :: ' ' :: (dumpV d v ++ (dumpObjTail d tl ++
              ('\n' :: (indentChars dc ++ ('\x7d' :: rest))))))) := by
          rw [parseObjRest_step, skipws_cons_not_ws ',' _ rfl]
          show parseMember g acc (skipws ('\n' :: (indentChars d ++ (dumpStr k ++
            (':' :: ' ' :: (dumpV d v ++ (dumpObjTail d tl ++ ('\n' :: (indentChars dc ++
              ('\x7d' :: rest)))))))))) =
            parseMember g acc (dumpStr k ++ (':' :: ' ' :: (dumpV d v ++ (dumpObjTail d tl ++
              ('\n' :: (indentChars dc ++ ('\x7d' :: rest)))))))
          rw [skipws_cons_ws '\n' _ rfl, skipws_indent, skipws_dumpStr]
        have hlenEq := congrArg List.length hform
        simp only [List.length_append, List.length_cons, dumpStr_length] at hlenEq hlen
        have hlenM : (dumpStr k ++ (':' :: ' ' :: (dumpV d v ++ (dumpObjTail d tl ++
            ('\n' :: (indentChars dc ++ ('\x7d' :: rest))))))).length < g := by
          simp only [List.length_append, List.length_cons, dumpStr_length]
          omega
        rw [hform, hbody,
          (ih g (by omega)).2.2.2.1 d dc k v tl acc rest hv htl hacck htlk hdisjtl hlenM]

end Zapcut

namespace Zapcut

/-- Reloading a written config returns exactly the written document. -/
theorem loadJson_writeContent (v : JValue) (h : nodupV v = true) :
    loadJson (writeContent v).data = some v := by
  have hdata : (writeContent v).data = dumpV 0 v ++ ['\n'] := rfl
  rw [hdata]
  unfold loadJson
  rw [show skipws (dumpV 0 v ++ ['\n']) = dumpV 0 v ++ ['\n'] from skipws_dumpV 0 v ['\n']]
  rw [(parse_dump_all ((dumpV 0 v ++ ['\n']).length + 1)).1 0 v ['\n'] h rfl
    (Nat.lt_succ_self _)]
  rfl

/-- A successful patching step only rewrites the `bundle` key: every
other top-level key keeps its value, and the no-duplicate-keys invariant
is preserved. -/
theorem applyResources_preserves (res : List String) (o : JObj) (v2 : JValue)
    (h : applyResources res (.obj o) = .ok v2) :
    ∃ o2, v2 = .obj o2 ∧ (∀ k, k ≠ "bundle" → lookupKey o2 k = lookupKey o k) ∧
      (nodupO o = true → nodupV v2 = true) := by
  simp only [applyResources, setBundleResources] at h
  cases hb : lookupKey (ensureBundle o) "bundle" with
  | none => rw [hb] at h; exact Except.noConfusion h
  | some b =>
    rw [hb] at h
    cases b with
    | obj bo =>
      cases h
      refine ⟨_, rfl, ?_, ?_⟩
      · intro k hk
        rw [lookupKey_setKey_ne _ _ _ _ hk]
        unfold ensureBundle
        by_cases hkb : hasKey o "bundle"
        · rw [if_pos hkb]
        · rw [if_neg hkb, lookupKey_setKey_ne _ _ _ _ hk]
      · intro hnd
        have hndo1 : nodupO (ensureBundle o) = true := by
          unfold ensureBundle
          by_cases hkb : hasKey o "bundle"
          · rw [if_pos hkb]; exact hnd
          · rw [if_neg hkb]; exact nodupO_setKey o _ _ hnd rfl
        have hndbo : nodupO bo = true := nodupV_lookupKey _ _ _ hndo1 hb
        exact nodupO_setKey _ _ _ hndo1
          (nodupO_setKey bo _ _ hndbo (nodupA_strList res))
    | null => exact Except.noConfusion h
    | bool x => exact Except.noConfusion h
    | num x => exact Except.noConfusion h
    | str x => exact Except.noConfusion h
    | arr x => exact Except.noConfusion h

/-- The patching step succeeds whenever the `bundle` key is absent or
holds a dict. -/
theorem applyResources_ok_of_bundleOk (res : List String) (o : JObj)
    (hb : lookupKey o "bundle" = none ∨ ∃ bo : JObj, lookupKey o "bundle" = some (.obj bo)) :
    ∃ v2, applyResources res (.obj o) = .ok v2 := by
  rcases hb with hb | ⟨bo, hb⟩
  · have hkb : ¬(hasKey o "bundle" = true) := by
      intro hk
      obtain ⟨b, hb2⟩ := lookupKey_of_hasKey o _ hk
      rw [hb2] at hb
      exact Option.noConfusion hb
    refine ⟨.obj (setKey (setKey o "bundle" (.obj .nil)) "bundle"
      (.obj (setKey .nil "resources" (.arr (strList res))))), ?_⟩
    simp only [applyResources, setBundleResources, ensureBundle, if_neg hkb,
      lookupKey_setKey_self]
  · have hkb : hasKey o "bundle" = true := hasKey_of_lookupKey o _ _ hb
    refine ⟨.obj (setKey o "bundle" (.obj (setKey bo "resources" (.arr (strList res))))), ?_⟩
    simp only [applyResources, setBundleResources, ensureBundle, if_pos hkb, hb]

end Zapcut

namespace Zapcut

/-- C9: writing a document is deterministic serialization of the full
document: the file content is the serialized body followed by a trailing
newline, reloading the written content returns exactly the written
document (so the key order as encountered and every value survive the
write), and two documents with identical write output are identical, so
equal documents produce identical file contents and distinct documents
never collide.  The no-duplicate-keys hypotheses are the representation
invariant of Python dicts. -/
theorem write_deterministic_round_trip (config config2 : JValue)
    (h1 : nodupV config = true) (h2 : nodupV config2 = true) :
    (∃ body, (writeContent config).data = body ++ ['\n']) ∧
    loadJson (writeContent config).data = some config ∧
    (writeContent config = writeContent config2 → config = config2) := by
  refine ⟨⟨dumpV 0 config, rfl⟩, loadJson_writeContent config h1, ?_⟩
  intro he
  have ha := loadJson_writeContent config h1
  rw [he, loadJson_writeContent config2 h2] at ha
  exact (Option.some.inj ha).symm

/-- Witness for C9 on a small concrete document. -/
theorem write_deterministic_round_trip_witness :
    (∃ body, (writeContent (.obj (.cons "a" (.num 1) .nil))).data = body ++ ['\n']) ∧
    loadJson (writeContent (.obj (.cons "a" (.num 1) .nil))).data =
      some (.obj (.cons "a" (.num 1) .nil)) ∧
    (writeContent (.obj (.cons "a" (.num 1) .nil)) =
        writeContent (.obj (.cons "a" (.num 1) .nil)) →
      JValue.obj (.cons "a" (.num 1) .nil) = .obj (.cons "a" (.num 1) .nil)) :=
  write_deterministic_round_trip (.obj (.cons "a" (.num 1) .nil))
    (.obj (.cons "a" (.num 1) .nil)) rfl rfl

/-- C1 counterexample: for the object document whose `bundle` key holds
the number 5 the pipeline aborts in the patching step, the file is left
unchanged, and reloading it yields the original document, whose `bundle`
value is not an object — so no reloaded document with
`bundle.resources` equal to the applied list exists, although the
pre-edit document is a JSON object. -/
theorem round_trip_bundle_cex :
    loadJson ("\x7b\"bundle\": 5\x7d" : String).data =
      some (.obj (.cons "bundle" (.num 5) .nil)) ∧
    (update_tauri_config "linux-x86_64" "tauri.conf.json"
      (some "\x7b\"bundle\": 5\x7d")).fileContent = some "\x7b\"bundle\": 5\x7d" ∧
    (update_tauri_config "linux-x86_64" "tauri.conf.json"
      (some "\x7b\"bundle\": 5\x7d")).outcome = .applyTypeError ∧
    Outcome.applyTypeError ≠ Outcome.success ∧
    lookupKey (.cons "bundle" (.num 5) .nil) "bundle" = some (.num 5) ∧
    (∀ bo : JObj, JValue.num 5 ≠ .obj bo) :=
  ⟨rfl, rfl, rfl, by decide, rfl, fun _ h => JValue.noConfusion h⟩

/-- C1 amended: for every config document that is a JSON object whose
`bundle` key, if present, holds an object, and every supported platform,
the run succeeds; the written content reloads to a document whose
`bundle.resources` equals exactly the applied two-path list, and every
other top-level key of the reloaded document has a value identical to
the pre-edit document.  The no-duplicate-keys hypothesis is the
representation invariant of documents loaded into Python dicts. -/
theorem round_trip (platform config_path content : String) (ps : List String) (o : JObj)
    (hp : lookupTable platform_resources platform = some ps)
    (hl : loadJson content.data = some (.obj o))
    (hnd : nodupV (.obj o) = true)
    (hb : lookupKey o "bundle" = none ∨ ∃ bo : JObj, lookupKey o "bundle" = some (.obj bo)) :
    ∃ (newContent : String) (o2 bo2 : JObj),
      update_tauri_config platform config_path (some content) =
        ⟨0, ["Successfully updated " ++ config_path, "Platform: " ++ platform,
             "Resources: " ++ pyListRepr ps], [], some newContent, .success⟩ ∧
      loadJson newContent.data = some (.obj o2) ∧
      lookupKey o2 "bundle" = some (.obj bo2) ∧
      lookupKey bo2 "resources" = some (.arr (strList ps)) ∧
      (∀ k, k ≠ "bundle" → lookupKey o2 k = lookupKey o k) := by
  obtain ⟨v2, hv2⟩ := applyResources_ok_of_bundleOk ps o hb
  obtain ⟨o2, rfl, hpres, hndpres⟩ := applyResources_preserves ps o v2 hv2
  obtain ⟨o2x, bo2, heq, hbun, hres⟩ := applyResources_ok_shape ps (.obj o) _ hv2
  injection heq with heq2
  subst heq2
  refine ⟨writeContent (.obj o2), o2, bo2, ?_, ?_, hbun, hres, hpres⟩
  · simp [update_tauri_config, hp, hl, hv2]
  · exact loadJson_writeContent _ (hndpres hnd)

/-- Witness for the amended C1 on a concrete one-key document. -/
theorem round_trip_witness :
    ∃ (newContent : String) (o2 bo2 : JObj),
      update_tauri_config "linux-x86_64" "tauri.conf.json"
          (some "\x7b\"otherKey\": 1\x7d") =
        ⟨0, ["Successfully updated " ++ "tauri.conf.json", "Platform: " ++ "linux-x86_64",
             "Resources: " ++ pyListRepr ["binaries/linux-x86_64/ffmpeg",
               "binaries/linux-x86_64/ffprobe"]], [], some newContent, .success⟩ ∧
      loadJson newContent.data = some (.obj o2) ∧
      lookupKey o2 "bundle" = some (.obj bo2) ∧
      lookupKey bo2 "resources" =
        some (.arr (strList ["binaries/linux-x86_64/ffmpeg",
          "binaries/linux-x86_64/ffprobe"])) ∧
      (∀ k, k ≠ "bundle" →
        lookupKey o2 k = lookupKey (.cons "otherKey" (.num 1) .nil) k) :=
  round_trip "linux-x86_64" "tauri.conf.json" "\x7b\"otherKey\": 1\x7d"
    ["binaries/linux-x86_64/ffmpeg", "binaries/linux-x86_64/ffprobe"]
    (.cons "otherKey" (.num 1) .nil) rfl rfl rfl (Or.inl rfl)

end Zapcut
